import Mathlib

/-!
# QuickCut — verification of the timeline/clip store and the export-plan compiler

Shallow embedding of the QuickCut editor core:

* the renderer state store (`src/renderer/src/store/useStore.ts`): the clip
  list, the crop and export settings, and the linear undo/redo history, with
  the mutation operations `addClip`, `updateClip`, `removeClip`,
  `splitClipAtPlayhead`, `rippleDelete`, `pushHistory`, `undo`, `redo`;
* the ffmpeg argument builder of `exportTimeline` in the electron main
  process, together with the module-level job/progress state.

Times, sizes and rates are JS numbers in the source; they are embedded as
rationals (`ℚ`), which supports the exact arithmetic the properties are
about.  Nondeterministic inputs of the source (`Date.now()` timestamps and
`generateClipId()` fresh identifiers) are threaded explicitly: the state
carries a logical clock used for timestamps, and operations that create a
clip take the fresh identifier as an argument.
-/

/-- `VideoFile` of `useStore.ts`: immutable descriptor of a probed input. -/
structure VideoFile where
  path : String
  name : String
  duration : ℚ
  width : ℚ
  height : ℚ
  codec : String
  format : String
  bitrate : Option ℚ
  frameRate : Option ℚ
  aspect : String
  size : ℚ
  deriving DecidableEq, Repr

/-- `TimelineClip` of `useStore.ts`: a placed reference into a source file. -/
structure TimelineClip where
  id : String
  sourceFile : VideoFile
  inPoint : ℚ
  outPoint : ℚ
  startTime : ℚ
  trackIndex : Option ℚ
  muted : Option Bool
  volume : Option ℚ
  speed : Option ℚ
  deriving DecidableEq, Repr

/-- `CropSettings` of `useStore.ts`. -/
structure CropSettings where
  x : ℚ
  y : ℚ
  width : ℚ
  height : ℚ
  enabled : Bool
  deriving DecidableEq, Repr

/-- `OutputFormat` of `useStore.ts`. -/
inductive OutputFormat where
  | mp4 | webm | mov | avi | mkv | wmv | flv | gif
  deriving DecidableEq, Repr

/-- Video codec union of `ExportSettings.codec`. -/
inductive Codec where
  | h264 | h265 | vp9 | prores | mpeg4
  deriving DecidableEq, Repr

/-- `ExportPreset` of `useStore.ts`. -/
inductive ExportPreset where
  | youtube1080p | youtube4k | twitter | instagram | tiktok | highQuality | smallFile | custom
  deriving DecidableEq, Repr

/-- `FFmpegSpeed` of `useStore.ts`. -/
inductive FFmpegSpeed where
  | ultrafast | superfast | veryfast | faster | fast | medium | slow | slower | veryslow
  deriving DecidableEq, Repr

/-- `resolution: { width, height } | 'source'`. -/
inductive ResolutionSetting where
  | source
  | custom (width height : ℚ)
  deriving DecidableEq, Repr

/-- `fps: number | 'source'`. -/
inductive FpsSetting where
  | source
  | value (n : ℚ)
  deriving DecidableEq, Repr

/-- `bitrate: number | 'auto'` (kbps). -/
inductive BitrateSetting where
  | auto
  | kbps (k : ℚ)
  deriving DecidableEq, Repr

/-- `ExportSettings` of `useStore.ts`. -/
structure ExportSettings where
  preset : ExportPreset
  format : OutputFormat
  codec : Codec
  resolution : ResolutionSetting
  fps : FpsSetting
  bitrate : BitrateSetting
  crf : ℚ
  speed : FFmpegSpeed
  deriving DecidableEq, Repr

/-- `HistoryState` of `useStore.ts`: the snapshot pushed by `pushHistory`. -/
structure HistoryState where
  version : ℕ
  timestamp : ℕ
  clips : List TimelineClip
  crop : CropSettings
  exportSettings : ExportSettings
  playheadTime : ℚ
  deriving DecidableEq, Repr

/-- The slice of the zustand `AppState` that the edit operations read and
write: the clip list, the edit settings snapshotted by the history, the
history itself, and the dirty flag.  `clock` stands in for `Date.now()`. -/
structure AppState where
  clips : List TimelineClip
  playheadTime : ℚ
  crop : CropSettings
  exportSettings : ExportSettings
  history : List HistoryState
  historyIndex : ℤ
  projectDirty : Bool
  clock : ℕ
  deriving DecidableEq, Repr

/-- `initialExportSettings` of `useStore.ts`. -/
def initialExportSettings : ExportSettings :=
  { preset := .youtube1080p, format := .mp4, codec := .h264, resolution := .source,
    fps := .source, bitrate := .auto, crf := 23, speed := .medium }

/-- `initialCrop` of `useStore.ts`. -/
def initialCrop : CropSettings := { x := 0, y := 0, width := 0, height := 0, enabled := false }

/-- The store's initial state (`clips: []`, `history: []`, `historyIndex: -1`,
`projectDirty: false`). -/
def initialState : AppState :=
  { clips := [], playheadTime := 0, crop := initialCrop,
    exportSettings := initialExportSettings, history := [], historyIndex := -1,
    projectDirty := false, clock := 0 }

/-- `pushHistory` of `useStore.ts`: truncate the redo branch
(`history.slice(0, historyIndex + 1)`), append a snapshot of the current
state, drop the oldest entry when more than 50 are retained, and point the
index at the new last entry. -/
def pushHistory (s : AppState) : AppState :=
  let snap : HistoryState :=
    { version := 1, timestamp := s.clock, clips := s.clips, crop := s.crop,
      exportSettings := s.exportSettings, playheadTime := s.playheadTime }
  let newHistory := s.history.take (s.historyIndex + 1).toNat ++ [snap]
  let newHistory := if newHistory.length > 50 then newHistory.drop 1 else newHistory
  { s with history := newHistory, historyIndex := (newHistory.length : ℤ) - 1,
           clock := s.clock + 1 }

/-- `undo` of `useStore.ts`: returns `false` when `historyIndex <= 0`,
otherwise restores `history[historyIndex - 1]` and moves the index back.
(The `none` branch of the lookup is unreachable: `pushHistory` keeps
`historyIndex` below `history.length`.) -/
def undo (s : AppState) : AppState × Bool :=
  if s.historyIndex ≤ 0 then (s, false)
  else
    match s.history.get? (s.historyIndex - 1).toNat with
    | none => (s, true)
    | some prev =>
        ({ s with clips := prev.clips, crop := prev.crop,
                  exportSettings := prev.exportSettings,
                  playheadTime := prev.playheadTime,
                  historyIndex := s.historyIndex - 1 }, true)

/-- `redo` of `useStore.ts`: returns `false` when
`historyIndex >= history.length - 1`, otherwise restores
`history[historyIndex + 1]` and moves the index forward. -/
def redo (s : AppState) : AppState × Bool :=
  if (s.history.length : ℤ) - 1 ≤ s.historyIndex then (s, false)
  else
    match s.history.get? (s.historyIndex + 1).toNat with
    | none => (s, true)
    | some next =>
        ({ s with clips := next.clips, crop := next.crop,
                  exportSettings := next.exportSettings,
                  playheadTime := next.playheadTime,
                  historyIndex := s.historyIndex + 1 }, true)

/-- `addClip` of `useStore.ts`: push a history snapshot, then append the
given clip unchanged (no validation of its fields). -/
def addClip (s : AppState) (clip : TimelineClip) : AppState :=
  let s := pushHistory s
  { s with clips := s.clips ++ [clip], projectDirty := true }

/-- `Partial<TimelineClip>`: the fields present in an `updateClip` update.
For the source's own optional fields a present key overrides the whole
optional value. -/
structure ClipUpdates where
  id : Option String
  sourceFile : Option VideoFile
  inPoint : Option ℚ
  outPoint : Option ℚ
  startTime : Option ℚ
  trackIndex : Option (Option ℚ)
  muted : Option (Option Bool)
  volume : Option (Option ℚ)
  speed : Option (Option ℚ)
  deriving DecidableEq, Repr

/-- An update with no fields present (`{}`). -/
def ClipUpdates.none : ClipUpdates :=
  { id := Option.none, sourceFile := Option.none, inPoint := Option.none,
    outPoint := Option.none, startTime := Option.none, trackIndex := Option.none,
    muted := Option.none, volume := Option.none, speed := Option.none }

/-- The spread `{ ...c, ...updates }`. -/
def applyClipUpdates (c : TimelineClip) (u : ClipUpdates) : TimelineClip :=
  { id := u.id.getD c.id, sourceFile := u.sourceFile.getD c.sourceFile,
    inPoint := u.inPoint.getD c.inPoint, outPoint := u.outPoint.getD c.outPoint,
    startTime := u.startTime.getD c.startTime,
    trackIndex := u.trackIndex.getD c.trackIndex, muted := u.muted.getD c.muted,
    volume := u.volume.getD c.volume, speed := u.speed.getD c.speed }

/-- `updateClip` of `useStore.ts`: push a history snapshot, then map the
spread `{ ...c, ...updates }` over the clip with the given id.  No lookup
check and no clamping of the new field values. -/
def updateClip (s : AppState) (i : String) (updates : ClipUpdates) : AppState :=
  let s := pushHistory s
  { s with clips := s.clips.map (fun c => if c.id == i then applyClipUpdates c updates else c),
           projectDirty := true }

/-- `removeClip` of `useStore.ts`: push a history snapshot, then filter the
clip out.  No lookup check: an absent id filters nothing. -/
def removeClip (s : AppState) (i : String) : AppState :=
  let s := pushHistory s
  { s with clips := s.clips.filter (fun c => !(c.id == i)), projectDirty := true }

/-- `rippleDelete` of `useStore.ts`: return unchanged when the id is absent;
otherwise push a history snapshot, drop the clip, and shift every clip whose
`startTime` is strictly greater than the deleted clip's left by the deleted
clip's duration. -/
def rippleDelete (s : AppState) (clipId : String) : AppState :=
  match s.clips.find? (fun c => c.id == clipId) with
  | none => s
  | some clip =>
      let s := pushHistory s
      let clipDuration := clip.outPoint - clip.inPoint
      let newClips :=
        (s.clips.filter (fun c => !(c.id == clipId))).map
          (fun c => if clip.startTime < c.startTime
                    then { c with startTime := c.startTime - clipDuration } else c)
      { s with clips := newClips, projectDirty := true }

/-- `splitClipAtPlayhead` of `useStore.ts`: return unchanged when the id is
absent or the playhead is not strictly inside the clip's timeline span;
otherwise push a history snapshot, truncate the clip at the split point,
append the second half as a fresh clip (built from scratch, so the optional
fields are absent), and re-sort the list by `startTime`. -/
def splitClipAtPlayhead (s : AppState) (clipId : String) (freshId : String) : AppState :=
  match s.clips.find? (fun c => c.id == clipId) with
  | none => s
  | some clip =>
      let clipEnd := clip.startTime + (clip.outPoint - clip.inPoint)
      if s.playheadTime ≤ clip.startTime ∨ clipEnd ≤ s.playheadTime then s
      else
        let s := pushHistory s
        let splitPointInSource := clip.inPoint + (s.playheadTime - clip.startTime)
        let clip1 : TimelineClip := { clip with outPoint := splitPointInSource }
        let clip2 : TimelineClip :=
          { id := freshId, sourceFile := clip.sourceFile,
            inPoint := splitPointInSource, outPoint := clip.outPoint,
            startTime := s.playheadTime, trackIndex := Option.none,
            muted := Option.none, volume := Option.none, speed := Option.none }
        let newClips :=
          ((s.clips.map (fun c => if c.id == clipId then clip1 else c)) ++ [clip2]).insertionSort
            (fun a b => a.startTime ≤ b.startTime)
        { s with clips := newClips, projectDirty := true }

/-- The clip well-formedness invariant of the specification:
`0 ≤ inPoint < outPoint ≤ sourceFile.duration` and `startTime ≥ 0`. -/
def ClipWF (c : TimelineClip) : Prop :=
  0 ≤ c.inPoint ∧ c.inPoint < c.outPoint ∧ c.outPoint ≤ c.sourceFile.duration ∧ 0 ≤ c.startTime

instance (c : TimelineClip) : Decidable (ClipWF c) := by
  unfold ClipWF; infer_instance

/-! ## The export-plan compiler (`exportTimeline` in the electron main process) -/

/-- `TimelineClipExport`: the per-clip data `exportTimeline` receives. -/
structure TimelineClipExport where
  sourcePath : String
  inPoint : ℚ
  outPoint : ℚ
  deriving DecidableEq, Repr

/-- `ExportTimelineParams` (the optional fields are TS `?:` fields). -/
structure ExportTimelineParams where
  clips : List TimelineClipExport
  outputPath : String
  format : OutputFormat
  crop : Option CropSettings
  codec : Option Codec
  resolution : Option ResolutionSetting
  fps : Option FpsSetting
  bitrate : Option BitrateSetting
  crf : Option ℚ
  speed : Option FFmpegSpeed
  deriving DecidableEq, Repr

/-- The literal string of a speed preset. -/
def FFmpegSpeed.str : FFmpegSpeed → String
  | .ultrafast => "ultrafast" | .superfast => "superfast" | .veryfast => "veryfast"
  | .faster => "faster" | .fast => "fast" | .medium => "medium"
  | .slow => "slow" | .slower => "slower" | .veryslow => "veryslow"

/-- Rendering of a JS number into its argument string.  JS prints numbers in
decimal; the exact digit string is irrelevant to every property proved here,
so the rational's own rendering (the integer numerator, or
`numerator/denominator`) stands in for it. -/
def numStr (q : ℚ) : String :=
  if q.den = 1 then q.num.repr else q.num.repr ++ "/" ++ Nat.repr q.den

/-- The per-clip input arguments:
`-ss <inPoint> -t <outPoint - inPoint> -i <sourcePath>` for each clip. -/
def inputArgs (clips : List TimelineClipExport) : List String :=
  clips.flatMap (fun clip =>
    ["-ss", numStr clip.inPoint, "-t", numStr (clip.outPoint - clip.inPoint),
     "-i", clip.sourcePath])

/-- The `[0:v][0:a][1:v][1:a]...` prefix of the concat filter. -/
def concatPairs (n : ℕ) : String :=
  String.join ((List.range n).map (fun i =>
    "[" ++ toString i ++ ":v][" ++ toString i ++ ":a]"))

/-- The `filter_complex` string: plain concat, or concat followed by a crop
chain when a crop is given. -/
def filterComplex (clips : List TimelineClipExport) (crop : Option CropSettings) : String :=
  match crop with
  | Option.none =>
      concatPairs clips.length ++ "concat=n=" ++ toString clips.length ++ ":v=1:a=1[outv][outa]"
  | Option.some cr =>
      concatPairs clips.length ++ "concat=n=" ++ toString clips.length ++
        ":v=1:a=1[concatv][outa];[concatv]crop=" ++ numStr cr.width ++ ":" ++
        numStr cr.height ++ ":" ++ numStr cr.x ++ ":" ++ numStr cr.y ++ "[outv]"

/-- `crf || 23`: in JS an absent or zero `crf` falls back to the default 23. -/
def crfVal (crf : Option ℚ) : ℚ :=
  match crf with
  | Option.none => 23
  | Option.some c => if c = 0 then 23 else c

/-- The `codec === ... ? ... :` chain choosing the encoder of the default
(`mov`/`mp4`/`mkv`/`avi`/fallthrough) branch. -/
def defaultVideoCodec (codec : Option Codec) : String :=
  match codec with
  | Option.some .h265 => "libx265"
  | Option.some .vp9 => "libvpx-vp9"
  | Option.some .prores => "prores_ks"
  | _ => "libx264"

/-- The encoder arguments of the default switch branch: the codec, then —
for every codec except prores — the speed preset and the CRF, the audio
codec, and `+faststart` for mp4/mov. -/
def defaultEncoderArgs (format : OutputFormat) (codec : Option Codec)
    (presetSpeed crfStr : String) : List String :=
  let videoCodec := defaultVideoCodec codec
  let xs := ["-c:v", videoCodec]
  let xs := if videoCodec ≠ "prores_ks" then xs ++ ["-preset", presetSpeed, "-crf", crfStr] else xs
  let xs := xs ++ ["-c:a", "aac"]
  if format = .mp4 ∨ format = .mov then xs ++ ["-movflags", "+faststart"] else xs

/-- `if (resolution && resolution !== 'source')`: the `-s WxH` arguments. -/
def resolutionArgs (r : Option ResolutionSetting) : List String :=
  match r with
  | Option.some (.custom w h) => ["-s", numStr w ++ "x" ++ numStr h]
  | _ => []

/-- `if (fps && fps !== 'source')`: the `-r` arguments (0 is falsy in JS). -/
def fpsArgs (f : Option FpsSetting) : List String :=
  match f with
  | Option.some (.value n) => if n = 0 then [] else ["-r", numStr n]
  | _ => []

/-- `if (bitrate && bitrate !== 'auto')`: the trailing `-b:v <n>k` arguments
(0 is falsy in JS). -/
def bitrateArgs (b : Option BitrateSetting) : List String :=
  match b with
  | Option.some (.kbps k) => if k = 0 then [] else ["-b:v", numStr k ++ "k"]
  | _ => []

/-- The ffmpeg argument list `exportTimeline` builds, in source order:
`-y`, the trimmed inputs, the concat/crop filter with its two `-map`s, the
per-format encoder settings (the gif branch pops the audio `-map` pair), then
resolution, fps and bitrate when present and truthy, and the output path. -/
def buildExportArgs (p : ExportTimelineParams) : List String :=
  let args := ["-y"] ++ inputArgs p.clips
  let args := args ++ ["-filter_complex", filterComplex p.clips p.crop,
                       "-map", "[outv]", "-map", "[outa]"]
  let presetSpeed := (p.speed.getD .medium).str
  let args := match p.format with
    | .webm =>
        args ++ ["-c:v", "libvpx-vp9", "-crf", numStr (crfVal p.crf), "-b:v", "0",
                 "-c:a", "libopus"]
    | .gif =>
        -- GIF doesn't support audio: two pops remove `-map [outa]`
        args.dropLast.dropLast ++ ["-c:v", "gif", "-loop", "0"]
    | _ =>
        args ++ defaultEncoderArgs p.format p.codec presetSpeed (numStr (crfVal p.crf))
  let args := args ++ resolutionArgs p.resolution
  let args := args ++ fpsArgs p.fps
  let args := args ++ bitrateArgs p.bitrate
  args ++ [p.outputPath]

/-- The module-level mutable state of the ffmpeg service:
`currentProcess !== null`, `currentProgress`, `totalDuration`. -/
structure EngineState where
  jobRunning : Bool
  currentProgress : ℚ
  totalDuration : ℚ
  deriving DecidableEq, Repr

/-- The failures `exportTimeline` can raise before any work happens. -/
inductive ExportError where
  | jobAlreadyRunning
  | noClipsToExport
  deriving DecidableEq, Repr

/-- `exportTimeline` up to the `spawn` call: reject when a job is running,
then reject an empty clip list — both before touching the module state —
otherwise set `totalDuration` to the sum of the clip durations, reset the
progress, and build the argument list. -/
def exportTimeline (st : EngineState) (p : ExportTimelineParams) :
    Except ExportError (List String) × EngineState :=
  if st.jobRunning then (.error .jobAlreadyRunning, st)
  else if p.clips.length = 0 then (.error .noClipsToExport, st)
  else
    let st := { st with
      totalDuration := p.clips.foldl (fun sum clip => sum + (clip.outPoint - clip.inPoint)) 0,
      currentProgress := 0 }
    (.ok (buildExportArgs p), st)

/-! ## Helper lemmas and concrete demonstration inputs -/

theorem pushHistory_clips (s : AppState) : (pushHistory s).clips = s.clips := rfl

theorem pushHistory_playhead (s : AppState) : (pushHistory s).playheadTime = s.playheadTime := rfl

/-- A probed 30-second 1080p source file. -/
def demoFile : VideoFile :=
  { path := "/videos/a.mp4", name := "a.mp4", duration := 30, width := 1920, height := 1080,
    codec := "h264", format := "mp4", bitrate := Option.none, frameRate := Option.none,
    aspect := "16:9", size := 5000000 }

/-- A clip covering `demoFile` in full at the head of the timeline. -/
def clipA : TimelineClip :=
  { id := "a", sourceFile := demoFile, inPoint := 0, outPoint := 30, startTime := 0,
    trackIndex := Option.none, muted := Option.none, volume := Option.none,
    speed := Option.none }

/-- A second, trimmed clip placed right after `clipA`. -/
def clipB : TimelineClip :=
  { id := "b", sourceFile := demoFile, inPoint := 5, outPoint := 15, startTime := 30,
    trackIndex := Option.none, muted := Option.none, volume := Option.none,
    speed := Option.none }

/-- A store holding `clipA` and `clipB`, with the playhead at the boundary
between them. -/
def demoState : AppState :=
  { initialState with clips := [clipA, clipB], playheadTime := 30 }

/-- C6: for a store whose addressed clip exists but whose playhead is not
strictly inside the clip's timeline span (boundaries included),
`splitClipAtPlayhead` returns the state unchanged: same clips, same history,
no dirty flag, nothing. -/
theorem splitClipAtPlayhead_boundary_noop (s : AppState) (clipId freshId : String)
    (c : TimelineClip) (hfind : s.clips.find? (fun x => x.id == clipId) = some c)
    (hout : s.playheadTime ≤ c.startTime ∨
            c.startTime + (c.outPoint - c.inPoint) ≤ s.playheadTime) :
    splitClipAtPlayhead s clipId freshId = s := by
  unfold splitClipAtPlayhead
  rw [hfind]
  simp only
  rw [if_pos hout]

/-- Witness for C6: the playhead sits exactly at `clipA`'s right boundary
(time 30), and splitting `clipA` there changes nothing. -/
theorem splitClipAtPlayhead_boundary_noop_witness :
    splitClipAtPlayhead demoState "a" "fresh" = demoState :=
  splitClipAtPlayhead_boundary_noop demoState "a" "fresh" clipA
    (by simp [demoState, initialState, clipA, clipB])
    (by right; norm_num [demoState, initialState, clipA])

/-- C7: with no job running and an empty clip list, `exportTimeline` fails
with the empty-timeline error before building any argument list and leaves
the module's progress/duration state untouched. -/
theorem exportTimeline_empty_fails (st : EngineState) (p : ExportTimelineParams)
    (hrun : st.jobRunning = false) (hclips : p.clips = []) :
    exportTimeline st p = (.error .noClipsToExport, st) := by
  unfold exportTimeline
  rw [hrun, hclips]
  simp

/-- Witness for C7 at a concrete idle engine state and empty parameter set. -/
theorem exportTimeline_empty_fails_witness :
    exportTimeline { jobRunning := false, currentProgress := 37, totalDuration := 12 }
      { clips := [], outputPath := "/out.mp4", format := .mp4, crop := Option.none,
        codec := Option.none, resolution := Option.none, fps := Option.none,
        bitrate := Option.none, crf := Option.none, speed := Option.none }
      = (.error .noClipsToExport,
         { jobRunning := false, currentProgress := 37, totalDuration := 12 }) :=
  exportTimeline_empty_fails _ _ rfl rfl

/-- Filtering out the clips with a given id shortens the list by the number
of occurrences of that id. -/
theorem length_filter_ne_id (l : List TimelineClip) (i : String) :
    (l.filter (fun c => !(c.id == i))).length + l.countP (fun c => c.id == i) = l.length := by
  induction l with
  | nil => rfl
  | cons a t ih =>
      by_cases h : a.id = i <;>
        simp [List.filter_cons, List.countP_cons, h] <;> omega

/-- C4: when exactly one clip carries the given id, `rippleDelete` removes
exactly that clip, shifts every remaining clip placed strictly after it left
by the deleted clip's duration, and keeps every other clip (and everyone's
in/out points) unchanged. -/
theorem rippleDelete_closes_gap (s : AppState) (i : String) (d : TimelineClip)
    (hfind : s.clips.find? (fun c => c.id == i) = some d)
    (huniq : s.clips.countP (fun c => c.id == i) = 1) :
    (rippleDelete s i).clips.length + 1 = s.clips.length
    ∧ (∀ c' ∈ (rippleDelete s i).clips, c'.id ≠ i)
    ∧ (∀ c ∈ s.clips, c.id ≠ i →
        (if d.startTime < c.startTime
         then { c with startTime := c.startTime - (d.outPoint - d.inPoint) }
         else c) ∈ (rippleDelete s i).clips) := by
  unfold rippleDelete
  rw [hfind]
  simp only [pushHistory_clips]
  refine ⟨?_, ?_, ?_⟩
  · rw [List.length_map]
    have := length_filter_ne_id s.clips i
    omega
  · intro c' hc'
    rcases List.mem_map.mp hc' with ⟨c, hc, hmap⟩
    have hne : (c.id == i) = false := by
      have := (List.mem_filter.mp hc).2
      simpa using this
    have hid : c.id ≠ i := by simpa using hne
    by_cases hshift : d.startTime < c.startTime
    · rw [if_pos hshift] at hmap
      subst hmap; simpa using hid
    · rw [if_neg hshift] at hmap
      subst hmap; exact hid
  · intro c hc hid
    have hmem : c ∈ s.clips.filter (fun c => !(c.id == i)) :=
      List.mem_filter.mpr ⟨hc, by simpa using hid⟩
    exact List.mem_map_of_mem _ hmem

/-- Witness for C4: ripple-deleting `clipA` (duration 30) shifts `clipB`
from 30 back to 0 and leaves nothing else. -/
theorem rippleDelete_closes_gap_witness :
    (rippleDelete demoState "a").clips.length + 1 = demoState.clips.length
    ∧ (∀ c' ∈ (rippleDelete demoState "a").clips, c'.id ≠ "a")
    ∧ (∀ c ∈ demoState.clips, c.id ≠ "a" →
        (if clipA.startTime < c.startTime
         then { c with startTime := c.startTime - (clipA.outPoint - clipA.inPoint) }
         else c) ∈ (rippleDelete demoState "a").clips) :=
  rippleDelete_closes_gap demoState "a" clipA
    (by simp [demoState, initialState, clipA, clipB])
    (by simp [demoState, initialState, clipA, clipB])

/-- C5: splitting a clip at a playhead strictly inside its timeline span
replaces it by exactly two clips — the original truncated at the split point
and a fresh clip starting there — whose source ranges and timeline ranges
are contiguous and together cover the original exactly; all other clips are
kept. -/
theorem splitClipAtPlayhead_coverage (s : AppState) (clipId freshId : String)
    (c : TimelineClip)
    (hfind : s.clips.find? (fun x => x.id == clipId) = some c)
    (h1 : c.startTime < s.playheadTime)
    (h2 : s.playheadTime < c.startTime + (c.outPoint - c.inPoint)) :
    (splitClipAtPlayhead s clipId freshId).clips.length = s.clips.length + 1
    ∧ { c with outPoint := c.inPoint + (s.playheadTime - c.startTime) }
        ∈ (splitClipAtPlayhead s clipId freshId).clips
    ∧ ({ id := freshId, sourceFile := c.sourceFile,
         inPoint := c.inPoint + (s.playheadTime - c.startTime), outPoint := c.outPoint,
         startTime := s.playheadTime, trackIndex := Option.none, muted := Option.none,
         volume := Option.none, speed := Option.none } : TimelineClip)
        ∈ (splitClipAtPlayhead s clipId freshId).clips
    ∧ (∀ x ∈ s.clips, x.id ≠ clipId → x ∈ (splitClipAtPlayhead s clipId freshId).clips)
    ∧ c.inPoint < c.inPoint + (s.playheadTime - c.startTime)
    ∧ c.inPoint + (s.playheadTime - c.startTime) < c.outPoint
    ∧ c.startTime + ((c.inPoint + (s.playheadTime - c.startTime)) - c.inPoint)
        = s.playheadTime
    ∧ s.playheadTime + (c.outPoint - (c.inPoint + (s.playheadTime - c.startTime)))
        = c.startTime + (c.outPoint - c.inPoint) := by
  have hmem : c ∈ s.clips := List.mem_of_find?_eq_some hfind
  have hpred : (c.id == clipId) = true := by
    have h := List.find?_some hfind
    simpa using h
  have hcond : ¬(s.playheadTime ≤ c.startTime ∨
      c.startTime + (c.outPoint - c.inPoint) ≤ s.playheadTime) := by
    push_neg
    exact ⟨h1, h2⟩
  unfold splitClipAtPlayhead
  rw [hfind]
  simp only
  rw [if_neg hcond]
  simp only [pushHistory_clips, pushHistory_playhead]
  refine ⟨?_, ?_, ?_, ?_, by linarith, by linarith, by ring, by ring⟩
  · rw [(List.perm_insertionSort _ _).length_eq]
    simp
  · rw [(List.perm_insertionSort _ _).mem_iff]
    apply List.mem_append_left
    have hmap := List.mem_map_of_mem
      (f := fun c_1 : TimelineClip =>
        if c_1.id == clipId
        then { c with outPoint := c.inPoint + (s.playheadTime - c.startTime) }
        else c_1) hmem
    simpa only [hpred, if_true] using hmap
  · rw [(List.perm_insertionSort _ _).mem_iff]
    apply List.mem_append_right
    simp
  · intro x hx hxid
    rw [(List.perm_insertionSort _ _).mem_iff]
    apply List.mem_append_left
    have hmap := List.mem_map_of_mem
      (f := fun c_1 : TimelineClip =>
        if c_1.id == clipId
        then { c with outPoint := c.inPoint + (s.playheadTime - c.startTime) }
        else c_1) hx
    simpa [hxid] using hmap

/-- A single full-length clip with the playhead strictly inside it. -/
def demoSplitState : AppState :=
  { initialState with clips := [clipA], playheadTime := 10 }

/-- Witness for C5: splitting the 30-second `clipA` at playhead 10 yields
`[0,10)` and `[10,30)` halves meeting exactly at the split point. -/
theorem splitClipAtPlayhead_coverage_witness :
    (splitClipAtPlayhead demoSplitState "a" "n").clips.length = demoSplitState.clips.length + 1
    ∧ { clipA with
          outPoint := clipA.inPoint + (demoSplitState.playheadTime - clipA.startTime) }
        ∈ (splitClipAtPlayhead demoSplitState "a" "n").clips
    ∧ ({ id := "n", sourceFile := clipA.sourceFile,
         inPoint := clipA.inPoint + (demoSplitState.playheadTime - clipA.startTime),
         outPoint := clipA.outPoint, startTime := demoSplitState.playheadTime,
         trackIndex := Option.none, muted := Option.none, volume := Option.none,
         speed := Option.none } : TimelineClip)
        ∈ (splitClipAtPlayhead demoSplitState "a" "n").clips
    ∧ (∀ x ∈ demoSplitState.clips, x.id ≠ "a"
         → x ∈ (splitClipAtPlayhead demoSplitState "a" "n").clips)
    ∧ clipA.inPoint < clipA.inPoint + (demoSplitState.playheadTime - clipA.startTime)
    ∧ clipA.inPoint + (demoSplitState.playheadTime - clipA.startTime) < clipA.outPoint
    ∧ clipA.startTime +
        ((clipA.inPoint + (demoSplitState.playheadTime - clipA.startTime)) - clipA.inPoint)
        = demoSplitState.playheadTime
    ∧ demoSplitState.playheadTime +
        (clipA.outPoint - (clipA.inPoint + (demoSplitState.playheadTime - clipA.startTime)))
        = clipA.startTime + (clipA.outPoint - clipA.inPoint) :=
  splitClipAtPlayhead_coverage demoSplitState "a" "n" clipA
    (by simp [demoSplitState, initialState, clipA])
    (by norm_num [demoSplitState, initialState, clipA])
    (by norm_num [demoSplitState, initialState, clipA])

/-! ## Sequences of store operations (claim C2) -/

/-- One user-level store mutation among `addClip`/`removeClip`/`updateClip`. -/
inductive StoreOp where
  | add (clip : TimelineClip)
  | remove (i : String)
  | update (i : String) (u : ClipUpdates)
  deriving DecidableEq, Repr

/-- Run one operation against the store. -/
def applyStoreOp (s : AppState) : StoreOp → AppState
  | .add clip => addClip s clip
  | .remove i => removeClip s i
  | .update i u => updateClip s i u

/-- Run a sequence of operations left to right. -/
def applyStoreOps (s : AppState) (ops : List StoreOp) : AppState :=
  ops.foldl applyStoreOp s

/-- The operations that cannot inject out-of-range fields: removals, and
additions whose clip already satisfies the invariant.  (`updateClip` is
excluded: it copies arbitrary caller fields into the clip unvalidated.) -/
def StoreOp.safe : StoreOp → Prop
  | .add clip => ClipWF clip
  | .remove _ => True
  | .update _ _ => False

/-- C2 (amended): a sequence of `addClip`/`removeClip` operations whose added
clips satisfy the well-formedness bounds keeps every clip of a well-formed
store within `0 ≤ inPoint < outPoint ≤ sourceFile.duration` and
`startTime ≥ 0`.  (`updateClip` offers no such guarantee.) -/
theorem addRemove_preserve_wf (ops : List StoreOp) (s : AppState)
    (hops : ∀ op ∈ ops, op.safe) (hs : ∀ c ∈ s.clips, ClipWF c) :
    ∀ c ∈ (applyStoreOps s ops).clips, ClipWF c := by
  induction ops generalizing s with
  | nil => exact hs
  | cons op rest ih =>
      have hop : op.safe := hops op (List.mem_cons_self op rest)
      have hrest : ∀ o ∈ rest, o.safe := fun o ho => hops o (List.mem_cons_of_mem op ho)
      have hnext : ∀ c ∈ (applyStoreOp s op).clips, ClipWF c := by
        cases op with
        | add clip =>
            intro c hc
            simp only [applyStoreOp, addClip, pushHistory_clips] at hc
            rcases List.mem_append.mp hc with h | h
            · exact hs c h
            · rcases List.mem_singleton.mp h with rfl
              exact hop
        | remove i =>
            intro c hc
            simp only [applyStoreOp, removeClip, pushHistory_clips] at hc
            exact hs c (List.mem_filter.mp hc).1
        | update i u => exact hop.elim
      exact ih (applyStoreOp s op) hrest hnext

/-- A well-formed one-clip store. -/
def wfState : AppState := { initialState with clips := [clipA] }

/-- Witness for C2 (amended): adding well-formed `clipB` and removing a
(possibly absent) id keeps every clip well-formed. -/
theorem addRemove_preserve_wf_witness :
    (∀ op ∈ [StoreOp.add clipB, StoreOp.remove "zz"], StoreOp.safe op)
    ∧ ∀ c ∈ (applyStoreOps wfState [StoreOp.add clipB, StoreOp.remove "zz"]).clips, ClipWF c := by
  have hops : ∀ op ∈ [StoreOp.add clipB, StoreOp.remove "zz"], StoreOp.safe op := by
    intro op hop
    rcases List.mem_cons.mp hop with rfl | hop
    · norm_num [StoreOp.safe, ClipWF, clipB, demoFile]
    rcases List.mem_cons.mp hop with rfl | hop
    · exact trivial
    · cases hop
  have hs : ∀ c ∈ wfState.clips, ClipWF c := by
    intro c hc
    rcases List.mem_singleton.mp hc with rfl
    norm_num [ClipWF, clipA, demoFile]
  exact ⟨hops, addRemove_preserve_wf [StoreOp.add clipB, StoreOp.remove "zz"] wfState hops hs⟩

/-- An update pushing `clipA`'s out point past its 30-second source. -/
def badUpdate : ClipUpdates := { ClipUpdates.none with outPoint := some 40 }

/-- Counterexample to C2 as stated: starting from a well-formed store, the
single `updateClip` sequence setting `outPoint := 40` (beyond the 30-second
source) succeeds and leaves a clip violating
`outPoint ≤ sourceFile.duration` — no operation clamps or rejects it. -/
theorem updateClip_breaks_wf :
    (∀ c ∈ wfState.clips, ClipWF c)
    ∧ ¬(∀ c ∈ (applyStoreOps wfState [StoreOp.update "a" badUpdate]).clips, ClipWF c) := by
  constructor
  · intro c hc
    rcases List.mem_singleton.mp hc with rfl
    norm_num [ClipWF, clipA, demoFile]
  · intro h
    have hc := h (applyClipUpdates clipA badUpdate) (by
      simp [applyStoreOps, applyStoreOp, updateClip, pushHistory_clips, wfState,
            initialState, clipA])
    rcases hc with ⟨-, -, hout, -⟩
    norm_num [applyClipUpdates, badUpdate, ClipUpdates.none, clipA, demoFile] at hout

/-! ## Lookup misses (claims C8, C9) -/

/-- C8 (amended): `removeClip` with an id no clip carries raises no error:
the clip list is returned unchanged (a silent no-op on clips, not an
explicit failure) — yet a history snapshot is still pushed and the project
is marked dirty. -/
theorem removeClip_absent_silent (s : AppState) (i : String)
    (h : ∀ c ∈ s.clips, c.id ≠ i) :
    (removeClip s i).clips = s.clips
    ∧ (removeClip s i).history = (pushHistory s).history
    ∧ (removeClip s i).historyIndex = (pushHistory s).historyIndex
    ∧ (removeClip s i).projectDirty = true := by
  refine ⟨?_, rfl, rfl, rfl⟩
  show (pushHistory s).clips.filter (fun c => !(c.id == i)) = s.clips
  rw [pushHistory_clips]
  exact List.filter_eq_self.mpr (fun c hc => by simpa using h c hc)

/-- Witness for C8 (amended) on the one-clip store and the id `"ghost"`. -/
theorem removeClip_absent_silent_witness :
    (removeClip wfState "ghost").clips = wfState.clips
    ∧ (removeClip wfState "ghost").history = (pushHistory wfState).history
    ∧ (removeClip wfState "ghost").historyIndex = (pushHistory wfState).historyIndex
    ∧ (removeClip wfState "ghost").projectDirty = true :=
  removeClip_absent_silent wfState "ghost"
    (by
      intro c hc
      rcases List.mem_singleton.mp hc with rfl
      simp [clipA])

/-- Counterexample to C8 as stated: removing the absent id `"ghost"` from
the one-clip store raises nothing — the call completes, leaves the clips
untouched, and even pushes a history entry and sets the dirty flag, so it is
a silent success rather than a `ClipNotFound` failure. -/
theorem removeClip_absent_no_failure :
    (removeClip wfState "ghost").clips = wfState.clips
    ∧ (removeClip wfState "ghost").history.length = wfState.history.length + 1
    ∧ wfState.history.length = 0
    ∧ (removeClip wfState "ghost").projectDirty = true
    ∧ wfState.projectDirty = false := by
  refine ⟨?_, ?_, rfl, rfl, rfl⟩
  · show (pushHistory wfState).clips.filter (fun c => !(c.id == "ghost")) = wfState.clips
    rw [pushHistory_clips]
    simp [wfState, initialState, clipA]
  · rfl

/-- C9 (amended): calling an operation with a clip id that no clip carries
splits by operation: `rippleDelete` and `splitClipAtPlayhead` return the
state entirely unchanged (their early-return guards fire before the history
push), while `removeClip` and `updateClip` leave the clip list unchanged but
still push a history snapshot and set `projectDirty`. -/
theorem lookup_miss_frame (s : AppState) (i : String) (u : ClipUpdates) (freshId : String)
    (h : ∀ c ∈ s.clips, c.id ≠ i) :
    rippleDelete s i = s
    ∧ splitClipAtPlayhead s i freshId = s
    ∧ removeClip s i = { pushHistory s with projectDirty := true }
    ∧ updateClip s i u = { pushHistory s with projectDirty := true } := by
  have hnone : s.clips.find? (fun c => c.id == i) = none :=
    List.find?_eq_none.mpr (fun c hc => by simpa using h c hc)
  refine ⟨?_, ?_, ?_, ?_⟩
  · unfold rippleDelete
    rw [hnone]
  · unfold splitClipAtPlayhead
    rw [hnone]
  · unfold removeClip
    have hfilter : (pushHistory s).clips.filter (fun c => !(c.id == i))
        = (pushHistory s).clips := by
      rw [pushHistory_clips]
      exact List.filter_eq_self.mpr (fun c hc => by simpa using h c hc)
    dsimp only
    rw [hfilter]
  · unfold updateClip
    have hmap : (pushHistory s).clips.map
        (fun c => if c.id == i then applyClipUpdates c u else c) = (pushHistory s).clips := by
      rw [pushHistory_clips]
      have hcong : ∀ c ∈ s.clips,
          (if c.id == i then applyClipUpdates c u else c) = c := by
        intro c hc
        rw [if_neg]
        simpa using h c hc
      rw [List.map_congr_left hcong, List.map_id']
    dsimp only
    rw [hmap]

/-- Witness for C9 (amended) on the one-clip store and the id `"ghost"`. -/
theorem lookup_miss_frame_witness :
    rippleDelete wfState "ghost" = wfState
    ∧ splitClipAtPlayhead wfState "ghost" "fresh" = wfState
    ∧ removeClip wfState "ghost" = { pushHistory wfState with projectDirty := true }
    ∧ updateClip wfState "ghost" ClipUpdates.none
        = { pushHistory wfState with projectDirty := true } :=
  lookup_miss_frame wfState "ghost" ClipUpdates.none "fresh"
    (by
      intro c hc
      rcases List.mem_singleton.mp hc with rfl
      simp [clipA])

/-- Counterexample to C9 as stated: `updateClip` aimed at the absent id
`"ghost"` finds nothing to update, yet the history list grows by one entry
and `projectDirty` flips to `true` — the call does not leave the history and
dirty flag exactly as they were. -/
theorem updateClip_absent_pushes_history :
    (updateClip wfState "ghost" ClipUpdates.none).clips = wfState.clips
    ∧ (updateClip wfState "ghost" ClipUpdates.none).history.length
        = wfState.history.length + 1
    ∧ wfState.history.length = 0
    ∧ (updateClip wfState "ghost" ClipUpdates.none).projectDirty = true
    ∧ wfState.projectDirty = false := by
  refine ⟨?_, rfl, rfl, rfl, rfl⟩
  show (pushHistory wfState).clips.map
      (fun c => if c.id == "ghost" then applyClipUpdates c ClipUpdates.none else c)
      = wfState.clips
  rw [pushHistory_clips]
  simp [wfState, initialState, clipA]

/-! ## Undo/redo round trip (claim C1) -/

/-- The store after one user edit (adding `clipA` to the empty store). -/
def editedOnce : AppState := addClip initialState clipA

/-- An update moving the clip to `startTime = 5`. -/
def movedUpdate : ClipUpdates := { ClipUpdates.none with startTime := some 5 }

/-- The store after a second user edit (repositioning the clip). -/
def editedTwice : AppState := updateClip editedOnce "a" movedUpdate

/-- C1 fails on the code: the post-edit state is never snapshotted, so the
round trip breaks in both directions.  After one edit, `undo()` returns
`false` and leaves the edit in place (the pre-edit snapshot sits at index 0,
which `undo` refuses to restore).  After two edits, a single `undo()` jumps
over the intermediate state straight back to the initial state, and redoing
to the top stops at the state before the last edit — `[clipA]` — instead of
the post-edit state `[clipA at startTime 5]`. -/
theorem undo_redo_roundTrip_off_by_one :
    (undo editedOnce).2 = false
    ∧ (undo editedOnce).1 = editedOnce
    ∧ editedOnce.clips = [clipA]
    ∧ initialState.clips = []
    ∧ (undo editedTwice).1.clips = []
    ∧ (redo (redo (undo editedTwice).1).1).2 = false
    ∧ (redo (redo (undo editedTwice).1).1).1.clips = [clipA]
    ∧ editedTwice.clips = [{ clipA with startTime := 5 }]
    ∧ ({ clipA with startTime := 5 } : TimelineClip) ≠ clipA := by
  refine ⟨rfl, rfl, rfl, rfl, rfl, rfl, rfl, rfl, ?_⟩
  intro hcontra
  have h5 : (5 : ℚ) = clipA.startTime := congrArg TimelineClip.startTime hcontra
  norm_num [clipA] at h5

/-! ## Character-level facts about rendered numbers

`numStr` renders a rational using the decimal digits of its numerator and
denominator, so its strings never contain letters or colons; in particular a
rendered number can never collide with an ffmpeg flag token. -/

theorem digitChar_isDigit (k : ℕ) (h : k < 10) : (Nat.digitChar k).isDigit = true := by
  interval_cases k <;> decide

theorem toDigitsCore_ten_chars (fuel : ℕ) :
    ∀ (n : ℕ) (ds : List Char), ∀ c ∈ Nat.toDigitsCore 10 fuel n ds,
      c ∈ ds ∨ c.isDigit = true := by
  induction fuel with
  | zero =>
      intro n ds c hc
      simp only [Nat.toDigitsCore] at hc
      exact Or.inl hc
  | succ f ih =>
      intro n ds c hc
      simp only [Nat.toDigitsCore] at hc
      by_cases h : n / 10 = 0
      · rw [if_pos h] at hc
        rcases List.mem_cons.mp hc with rfl | hmem
        · exact Or.inr (digitChar_isDigit _ (Nat.mod_lt _ (by norm_num)))
        · exact Or.inl hmem
      · rw [if_neg h] at hc
        rcases ih (n / 10) ((n % 10).digitChar :: ds) c hc with hmem | hd
        · rcases List.mem_cons.mp hmem with rfl | hmem'
          · exact Or.inr (digitChar_isDigit _ (Nat.mod_lt _ (by norm_num)))
          · exact Or.inl hmem'
        · exact Or.inr hd

theorem natRepr_chars (n : ℕ) : ∀ c ∈ (Nat.repr n).data, c.isDigit = true := by
  intro c hc
  have hc' : c ∈ Nat.toDigitsCore 10 (n + 1) n [] := hc
  rcases toDigitsCore_ten_chars (n + 1) n [] c hc' with hmem | hd
  · cases hmem
  · exact hd

theorem intRepr_chars (n : ℤ) : ∀ c ∈ (Int.repr n).data, c.isDigit = true ∨ c = '-' := by
  intro c hc
  cases n with
  | ofNat m => exact Or.inl (natRepr_chars m c hc)
  | negSucc m =>
      have hsplit : c ∈ ("-" : String).data ++ (Nat.repr (m + 1)).data := by
        rw [← String.data_append]
        exact hc
      rcases List.mem_append.mp hsplit with h | h
      · right
        simpa using h
      · exact Or.inl (natRepr_chars (m + 1) c h)

theorem numStr_chars (q : ℚ) :
    ∀ c ∈ (numStr q).data, c.isDigit = true ∨ c = '-' ∨ c = '/' := by
  intro c hc
  unfold numStr at hc
  by_cases h : q.den = 1
  · rw [if_pos h] at hc
    rcases intRepr_chars q.num c hc with h1 | h1
    · exact Or.inl h1
    · exact Or.inr (Or.inl h1)
  · rw [if_neg h] at hc
    have hsplit : c ∈ ((Int.repr q.num).data ++ ("/" : String).data)
        ++ (Nat.repr q.den).data := by
      rw [← String.data_append, ← String.data_append]
      exact hc
    rcases List.mem_append.mp hsplit with h1 | h1
    · rcases List.mem_append.mp h1 with h2 | h2
      · rcases intRepr_chars q.num c h2 with h3 | h3
        · exact Or.inl h3
        · exact Or.inr (Or.inl h3)
      · exact Or.inr (Or.inr (by simpa using h2))
    · exact Or.inl (natRepr_chars q.den c h1)

/-- Two strings differ when one holds a character the other lacks. -/
theorem String.ne_of_char (a b : String) (c : Char) (hca : c ∈ a.data)
    (hcb : c ∉ b.data) : a ≠ b := fun h => hcb (h ▸ hca)

/-- A rendered number never equals a string containing a non-numeric
character. -/
theorem numStr_ne (q : ℚ) (s : String) (c : Char) (hc : c ∈ s.data)
    (h : ¬(c.isDigit = true ∨ c = '-' ∨ c = '/')) : numStr q ≠ s :=
  fun he => h (numStr_chars q c (he ▸ hc))

theorem numStr_ne_bv (q : ℚ) : numStr q ≠ "-b:v" :=
  numStr_ne q "-b:v" 'b' (by decide) (by decide)

theorem numStr_ne_crf (q : ℚ) : numStr q ≠ "-crf" :=
  numStr_ne q "-crf" 'c' (by decide) (by decide)

theorem numStr_k_ne (q : ℚ) (s : String) (hk : 'k' ∉ s.data) : numStr q ++ "k" ≠ s := by
  apply String.ne_of_char _ _ 'k' _ hk
  rw [String.data_append]
  exact List.mem_append_right _ (by decide)

theorem resToken_ne (w h : ℚ) (s : String) (hx : 'x' ∉ s.data) :
    numStr w ++ "x" ++ numStr h ≠ s := by
  apply String.ne_of_char _ _ 'x' _ hx
  rw [String.data_append]
  apply List.mem_append_left
  rw [String.data_append]
  exact List.mem_append_right _ (by decide)

/-- The concat filter string always contains the character `=`. -/
theorem filterComplex_has_eq (clips : List TimelineClipExport) (crop : Option CropSettings) :
    '=' ∈ (filterComplex clips crop).data := by
  have h : '=' ∈ ("concat=n=" : String).data := by decide
  cases crop <;>
    simp only [filterComplex, String.data_append, List.mem_append] <;> tauto

theorem filterComplex_ne (clips : List TimelineClipExport) (crop : Option CropSettings)
    (s : String) (hs : '=' ∉ s.data) : filterComplex clips crop ≠ s :=
  String.ne_of_char _ _ '=' (filterComplex_has_eq clips crop) hs

theorem speedStr_ne_bv (sp : FFmpegSpeed) : sp.str ≠ "-b:v" := by
  cases sp <;> decide

/-- With any codec other than prores the default branch never selects the
prores encoder. -/
theorem defaultVideoCodec_ne_prores (codec : Option Codec)
    (h : codec ≠ Option.some Codec.prores) : defaultVideoCodec codec ≠ "prores_ks" := by
  cases codec with
  | none => decide
  | some c => cases c <;> first | decide | exact absurd rfl h

theorem defaultVideoCodec_ne_bv (codec : Option Codec) : defaultVideoCodec codec ≠ "-b:v" := by
  cases codec with
  | none => decide
  | some c => cases c <;> decide

/-! ## Adjacent flag/value pairs in an argument list -/

/-- `hasPair x y args`: some adjacent pair of tokens in `args` is `x, y` —
the shape of a flag `x` passed with value `y`. -/
def hasPair (x y : String) : List String → Bool
  | a :: b :: rest => (a == x && b == y) || hasPair x y (b :: rest)
  | _ => false

theorem hasPair_nil (x y : String) : hasPair x y [] = false := rfl

theorem hasPair_single (x y a : String) : hasPair x y [a] = false := rfl

theorem hasPair_cons_cons (x y a b : String) (l : List String) :
    hasPair x y (a :: b :: l) = ((a == x && b == y) || hasPair x y (b :: l)) := rfl

theorem hasPair_cons_false (x y a : String) (l : List String)
    (h : a = x → l.head? ≠ some y) (hl : hasPair x y l = false) :
    hasPair x y (a :: l) = false := by
  cases l with
  | nil => rfl
  | cons b t =>
      rw [hasPair_cons_cons, hl, Bool.or_false]
      by_cases hax : a = x
      · have hby : b ≠ y := by
          intro hby
          exact h hax (by rw [hby, List.head?_cons])
        simp [hax, hby]
      · simp [hax]

/-- The pair cannot start at a token different from the flag. -/
theorem hasPair_cons_false_of_ne (x y a : String) (l : List String) (ha : a ≠ x)
    (hl : hasPair x y l = false) : hasPair x y (a :: l) = false :=
  hasPair_cons_false x y a l (fun h => absurd h ha) hl

/-- The pair cannot start at a token whose successor is not the value. -/
theorem hasPair_cons_false_of_head (x y a b : String) (l : List String) (hb : b ≠ y)
    (hl : hasPair x y (b :: l) = false) : hasPair x y (a :: b :: l) = false :=
  hasPair_cons_false x y a (b :: l)
    (fun _ hh => hb (Option.some.inj (by rwa [List.head?_cons] at hh))) hl

theorem hasPair_append_false (x y : String) (l₁ l₂ : List String)
    (h1 : hasPair x y l₁ = false) (h2 : hasPair x y l₂ = false)
    (hb : l₁.getLast? ≠ some x ∨ l₂.head? ≠ some y) :
    hasPair x y (l₁ ++ l₂) = false := by
  induction l₁ with
  | nil => simpa using h2
  | cons a t ih =>
      rw [List.cons_append]
      cases t with
      | nil =>
          apply hasPair_cons_false x y a l₂ _ h2
          intro hax
          rcases hb with hL | hH
          · exact absurd (by simpa using hax) hL
          · exact hH
      | cons b t' =>
          have h1' : hasPair x y (b :: t') = false ∧ (a == x && b == y) = false := by
            rw [hasPair_cons_cons] at h1
            exact ⟨(Bool.or_eq_false_iff.mp h1).2, (Bool.or_eq_false_iff.mp h1).1⟩
          apply hasPair_cons_false
          · intro hax hhead
            rw [List.cons_append, List.head?_cons] at hhead
            have hby : b = y := by simpa using hhead
            have hpair := h1'.2
            rw [hax, hby] at hpair
            simp at hpair
          · apply ih h1'.1
            rcases hb with hL | hH
            · left
              rwa [List.getLast?_cons_cons] at hL
            · right
              exact hH

theorem hasPair_cons_of (x y a : String) (l : List String) (h : hasPair x y l = true) :
    hasPair x y (a :: l) = true := by
  cases l with
  | nil => cases h
  | cons b t =>
      rw [hasPair_cons_cons, h]
      simp

theorem hasPair_append_of_right (x y : String) (l₁ l₂ : List String)
    (h : hasPair x y l₂ = true) : hasPair x y (l₁ ++ l₂) = true := by
  induction l₁ with
  | nil => simpa using h
  | cons a t ih =>
      rw [List.cons_append]
      exact hasPair_cons_of x y a _ ih

theorem hasPair_append_of_left (x y : String) (l₁ l₂ : List String)
    (h : hasPair x y l₁ = true) : hasPair x y (l₁ ++ l₂) = true := by
  induction l₁ with
  | nil => cases h
  | cons a t ih =>
      cases t with
      | nil => cases h
      | cons b t' =>
          rw [hasPair_cons_cons] at h
          rcases Bool.or_eq_true_iff.mp h with hp | hrec
          · rw [List.cons_append, List.cons_append, hasPair_cons_cons,
                ← List.cons_append, hp]
            simp
          · rw [List.cons_append]
            exact hasPair_cons_of x y a _ (ih hrec)

/-! ## Segment facts about the built argument list -/

theorem inputArgs_nil : inputArgs [] = [] := rfl

theorem inputArgs_cons (cl : TimelineClipExport) (rest : List TimelineClipExport) :
    inputArgs (cl :: rest) = "-ss" :: numStr cl.inPoint :: "-t" ::
      numStr (cl.outPoint - cl.inPoint) :: "-i" :: cl.sourcePath :: inputArgs rest := by
  simp [inputArgs]

/-- No `-crf 0` pair can hide among the trimmed input arguments: every
value token there is followed by a literal flag. -/
theorem inputArgs_crf0 (clips : List TimelineClipExport) :
    hasPair "-crf" "0" (inputArgs clips) = false
    ∧ (inputArgs clips).head? ≠ some "0" := by
  induction clips with
  | nil => exact ⟨rfl, by simp [inputArgs_nil]⟩
  | cons cl rest ih =>
      rw [inputArgs_cons]
      refine ⟨?_, by simp⟩
      apply hasPair_cons_false_of_ne _ _ _ _ (by decide)
      apply hasPair_cons_false_of_head _ _ _ _ _ (by decide)
      apply hasPair_cons_false_of_ne _ _ _ _ (by decide)
      apply hasPair_cons_false_of_head _ _ _ _ _ (by decide)
      apply hasPair_cons_false_of_ne _ _ _ _ (by decide)
      exact hasPair_cons_false _ _ _ _ (fun _ => ih.2) ih.1

/-- The flag `-b:v` never occurs among the input arguments when no source
path spells it. -/
theorem not_mem_inputArgs_bv (clips : List TimelineClipExport)
    (h : ∀ cl ∈ clips, cl.sourcePath ≠ "-b:v") :
    ("-b:v" : String) ∉ inputArgs clips := by
  induction clips with
  | nil => simp [inputArgs_nil]
  | cons cl rest ih =>
      rw [inputArgs_cons]
      intro hmem
      simp only [List.mem_cons] at hmem
      rcases hmem with h1 | h2 | h3 | h4 | h5 | h6 | h7
      · exact absurd h1 (by decide)
      · exact numStr_ne_bv cl.inPoint h2.symm
      · exact absurd h3 (by decide)
      · exact numStr_ne_bv (cl.outPoint - cl.inPoint) h4.symm
      · exact absurd h5 (by decide)
      · exact h cl (List.mem_cons_self cl rest) h6.symm
      · exact ih (fun c hc => h c (List.mem_cons_of_mem cl hc)) h7

theorem filterSeg_crf0 (fc : String) :
    hasPair "-crf" "0" ["-filter_complex", fc, "-map", "[outv]", "-map", "[outa]"] = false := by
  apply hasPair_cons_false_of_ne _ _ _ _ (by decide)
  apply hasPair_cons_false_of_head _ _ _ _ _ (by decide)
  apply hasPair_cons_false_of_ne _ _ _ _ (by decide)
  apply hasPair_cons_false_of_ne _ _ _ _ (by decide)
  apply hasPair_cons_false_of_ne _ _ _ _ (by decide)
  exact hasPair_single _ _ _

theorem resolutionArgs_facts (r : Option ResolutionSetting) :
    hasPair "-crf" "0" (resolutionArgs r) = false
    ∧ (resolutionArgs r).head? ≠ some "0"
    ∧ (resolutionArgs r).getLast? ≠ some "-crf"
    ∧ ("-b:v" : String) ∉ resolutionArgs r := by
  match r with
  | Option.none => exact ⟨rfl, by simp [resolutionArgs], by simp [resolutionArgs], by simp [resolutionArgs]⟩
  | Option.some .source => exact ⟨rfl, by simp [resolutionArgs], by simp [resolutionArgs], by simp [resolutionArgs]⟩
  | Option.some (.custom w h) =>
      refine ⟨?_, by simp [resolutionArgs], ?_, ?_⟩
      · exact hasPair_cons_false_of_ne _ _ _ _ (by decide) (hasPair_single _ _ _)
      · show (["-s", numStr w ++ "x" ++ numStr h] : List String).getLast? ≠ some "-crf"
        intro hcontra
        simp only [List.getLast?] at hcontra
        exact resToken_ne w h "-crf" (by decide) (by simpa using hcontra)
      · intro hcontra
        simp only [resolutionArgs, List.mem_cons, List.not_mem_nil, or_false] at hcontra
        rcases hcontra with h1 | h2
        · exact absurd h1 (by decide)
        · exact resToken_ne w h "-b:v" (by decide) h2.symm

theorem fpsArgs_facts (f : Option FpsSetting) :
    hasPair "-crf" "0" (fpsArgs f) = false
    ∧ (fpsArgs f).head? ≠ some "0"
    ∧ (fpsArgs f).getLast? ≠ some "-crf"
    ∧ ("-b:v" : String) ∉ fpsArgs f := by
  match f with
  | Option.none => exact ⟨rfl, by simp [fpsArgs], by simp [fpsArgs], by simp [fpsArgs]⟩
  | Option.some .source => exact ⟨rfl, by simp [fpsArgs], by simp [fpsArgs], by simp [fpsArgs]⟩
  | Option.some (.value n) =>
      by_cases hn : n = 0
      · refine ⟨?_, ?_, ?_, ?_⟩ <;> simp [fpsArgs, hn, hasPair_nil]
      · have hlist : fpsArgs (Option.some (.value n)) = ["-r", numStr n] := by
          simp [fpsArgs, hn]
        rw [hlist]
        refine ⟨?_, by simp, ?_, ?_⟩
        · exact hasPair_cons_false_of_ne _ _ _ _ (by decide) (hasPair_single _ _ _)
        · intro hcontra
          simp only [List.getLast?] at hcontra
          exact numStr_ne_crf n (by simpa using hcontra)
        · intro hcontra
          simp only [List.mem_cons, List.not_mem_nil, or_false] at hcontra
          rcases hcontra with h1 | h2
          · exact absurd h1 (by decide)
          · exact numStr_ne_bv n h2.symm

theorem bitrateArgs_facts (b : Option BitrateSetting) :
    hasPair "-crf" "0" (bitrateArgs b) = false
    ∧ (bitrateArgs b).head? ≠ some "0"
    ∧ (bitrateArgs b).getLast? ≠ some "-crf" := by
  match b with
  | Option.none => exact ⟨rfl, by simp [bitrateArgs], by simp [bitrateArgs]⟩
  | Option.some .auto => exact ⟨rfl, by simp [bitrateArgs], by simp [bitrateArgs]⟩
  | Option.some (.kbps k) =>
      by_cases hk : k = 0
      · refine ⟨?_, ?_, ?_⟩ <;> simp [bitrateArgs, hk, hasPair_nil]
      · have hlist : bitrateArgs (Option.some (.kbps k)) = ["-b:v", numStr k ++ "k"] := by
          simp [bitrateArgs, hk]
        rw [hlist]
        refine ⟨?_, by simp, ?_⟩
        · exact hasPair_cons_false_of_ne _ _ _ _ (by decide) (hasPair_single _ _ _)
        · intro hcontra
          simp only [List.getLast?] at hcontra
          exact numStr_k_ne k "-crf" (by decide) (by simpa using hcontra)

theorem bitrateArgs_auto : bitrateArgs (Option.some BitrateSetting.auto) = [] := rfl

/-- The default-branch encoder list written out for a non-prores codec. -/
theorem defaultEncoderArgs_expand (fmt : OutputFormat) (codec : Option Codec)
    (sp c : String) (hpro : codec ≠ Option.some Codec.prores) :
    defaultEncoderArgs fmt codec sp c =
      ("-c:v" :: defaultVideoCodec codec :: "-preset" :: sp :: "-crf" :: c :: "-c:a" :: "aac" ::
        (if fmt = .mp4 ∨ fmt = .mov then ["-movflags", "+faststart"] else [])) := by
  unfold defaultEncoderArgs
  dsimp only
  rw [if_pos (defaultVideoCodec_ne_prores codec hpro)]
  by_cases hm : fmt = .mp4 ∨ fmt = .mov
  · rw [if_pos hm, if_pos hm]
    rfl
  · rw [if_neg hm, if_neg hm]
    rfl

theorem encoder_crf0 (fmt : OutputFormat) (codec : Option Codec) (sp : String)
    (hpro : codec ≠ Option.some Codec.prores) :
    hasPair "-crf" "0" (defaultEncoderArgs fmt codec sp "23") = false := by
  rw [defaultEncoderArgs_expand fmt codec sp "23" hpro]
  apply hasPair_cons_false_of_ne _ _ _ _ (by decide)
  apply hasPair_cons_false_of_head _ _ _ _ _ (by decide)
  apply hasPair_cons_false_of_ne _ _ _ _ (by decide)
  apply hasPair_cons_false_of_head _ _ _ _ _ (by decide)
  apply hasPair_cons_false_of_head _ _ _ _ _ (by decide)
  apply hasPair_cons_false_of_ne _ _ _ _ (by decide)
  apply hasPair_cons_false_of_ne _ _ _ _ (by decide)
  by_cases hm : fmt = .mp4 ∨ fmt = .mov
  · rw [if_pos hm]
    apply hasPair_cons_false_of_ne _ _ _ _ (by decide)
    apply hasPair_cons_false_of_ne _ _ _ _ (by decide)
    exact hasPair_single _ _ _
  · rw [if_neg hm]
    exact hasPair_single _ _ _

theorem encoder_head (fmt : OutputFormat) (codec : Option Codec) (sp c : String) :
    (defaultEncoderArgs fmt codec sp c).head? = some "-c:v" := by
  unfold defaultEncoderArgs
  by_cases hv : defaultVideoCodec codec ≠ "prores_ks" <;>
    by_cases hm : fmt = .mp4 ∨ fmt = .mov <;>
      simp [hv, hm]

theorem encoder_getLast (fmt : OutputFormat) (codec : Option Codec) (sp c : String) :
    (defaultEncoderArgs fmt codec sp c).getLast? = some "aac"
    ∨ (defaultEncoderArgs fmt codec sp c).getLast? = some "+faststart" := by
  unfold defaultEncoderArgs
  by_cases hv : defaultVideoCodec codec ≠ "prores_ks" <;>
    by_cases hm : fmt = .mp4 ∨ fmt = .mov <;>
      simp [hv, hm, List.getLast?_append]

/-- The `-crf` flag is always present in a non-prores default-branch encoder
segment. -/
theorem encoder_mem_crf (fmt : OutputFormat) (codec : Option Codec) (sp c : String)
    (hpro : codec ≠ Option.some Codec.prores) :
    ("-crf" : String) ∈ defaultEncoderArgs fmt codec sp c := by
  rw [defaultEncoderArgs_expand fmt codec sp c hpro]
  simp

/-- The `-b:v` flag never occurs in a non-prores default-branch encoder
segment whose speed and CRF strings do not spell it. -/
theorem encoder_not_mem_bv (fmt : OutputFormat) (codec : Option Codec) (sp c : String)
    (hpro : codec ≠ Option.some Codec.prores) (hsp : sp ≠ "-b:v") (hc : c ≠ "-b:v") :
    ("-b:v" : String) ∉ defaultEncoderArgs fmt codec sp c := by
  rw [defaultEncoderArgs_expand fmt codec sp c hpro]
  intro hmem
  simp only [List.mem_cons] at hmem
  rcases hmem with h | h | h | h | h | h | h | h | h
  · exact absurd h (by decide)
  · exact defaultVideoCodec_ne_bv codec h.symm
  · exact absurd h (by decide)
  · exact hsp h.symm
  · exact absurd h (by decide)
  · exact hc h.symm
  · exact absurd h (by decide)
  · exact absurd h (by decide)
  · by_cases hm : fmt = .mp4 ∨ fmt = .mov
    · rw [if_pos hm] at h
      simp only [List.mem_cons, List.not_mem_nil, or_false] at h
      rcases h with h | h <;> exact absurd h (by decide)
    · rw [if_neg hm] at h
      exact absurd h (List.not_mem_nil _)

/-- For every format taken by the default switch branch, the built argument
list is the inputs, the filter, the default encoder segment, and the
trailing resolution/fps/bitrate/output arguments. -/
theorem buildExportArgs_default (p : ExportTimelineParams)
    (h1 : p.format ≠ .webm) (h2 : p.format ≠ .gif) :
    buildExportArgs p =
      ((((((["-y"] ++ inputArgs p.clips)
        ++ ["-filter_complex", filterComplex p.clips p.crop,
            "-map", "[outv]", "-map", "[outa]"])
        ++ defaultEncoderArgs p.format p.codec ((p.speed.getD .medium).str)
             (numStr (crfVal p.crf)))
        ++ resolutionArgs p.resolution)
        ++ fpsArgs p.fps)
        ++ bitrateArgs p.bitrate)
        ++ [p.outputPath] := by
  obtain ⟨clips, out, fmt, crop, codec, res, fps, br, crf, sp⟩ := p
  cases fmt <;> first
    | rfl
    | exact absurd rfl h1
    | exact absurd rfl h2

/-- For webm the encoder segment is the fixed vp9 line carrying both `-crf`
and `-b:v 0`. -/
theorem buildExportArgs_webm (p : ExportTimelineParams) (h : p.format = .webm) :
    buildExportArgs p =
      ((((((["-y"] ++ inputArgs p.clips)
        ++ ["-filter_complex", filterComplex p.clips p.crop,
            "-map", "[outv]", "-map", "[outa]"])
        ++ ["-c:v", "libvpx-vp9", "-crf", numStr (crfVal p.crf), "-b:v", "0",
            "-c:a", "libopus"])
        ++ resolutionArgs p.resolution)
        ++ fpsArgs p.fps)
        ++ bitrateArgs p.bitrate)
        ++ [p.outputPath] := by
  obtain ⟨clips, out, fmt, crop, codec, res, fps, br, crf, sp⟩ := p
  cases fmt <;> first
    | rfl
    | simp at h

theorem or_ne_some (a b : Option String) (v : String) (ha : a ≠ some v)
    (hb : b ≠ some v) : a.or b ≠ some v := by
  cases a <;> simp_all [Option.or]

/-- C10: with `crf = 0` requested (and any format except gif, any codec
except prores) the emitted arguments carry `-crf 23` — the falsy zero is
silently replaced by the default — and never `-crf 0`. -/
theorem exportTimeline_crf_zero_coerced (p : ExportTimelineParams)
    (hcrf : p.crf = Option.some 0) (hgif : p.format ≠ .gif)
    (hpro : p.codec ≠ Option.some Codec.prores) :
    hasPair "-crf" "23" (buildExportArgs p) = true
    ∧ hasPair "-crf" "0" (buildExportArgs p) = false := by
  have hcrfstr : numStr (crfVal p.crf) = "23" := by
    rw [hcrf]
    norm_num [crfVal, numStr]
    decide
  have hA : hasPair "-crf" "0" (["-y"] ++ inputArgs p.clips) = false := by
    rw [List.singleton_append]
    exact hasPair_cons_false_of_ne _ _ _ _ (by decide) (inputArgs_crf0 p.clips).1
  have hR := resolutionArgs_facts p.resolution
  have hFp := fpsArgs_facts p.fps
  have hBr := bitrateArgs_facts p.bitrate
  by_cases hw : p.format = .webm
  · rw [buildExportArgs_webm p hw, hcrfstr]
    constructor
    · apply hasPair_append_of_left
      apply hasPair_append_of_left
      apply hasPair_append_of_left
      apply hasPair_append_of_left
      apply hasPair_append_of_right
      decide
    · apply hasPair_append_false
      · apply hasPair_append_false
        · apply hasPair_append_false
          · apply hasPair_append_false
            · apply hasPair_append_false
              · apply hasPair_append_false
                · exact hA
                · exact filterSeg_crf0 _
                · right; simp
              · decide
              · right; simp
            · exact hR.1
            · right; exact hR.2.1
          · exact hFp.1
          · right; exact hFp.2.1
        · exact hBr.1
        · right; exact hBr.2.1
      · exact hasPair_single _ _ _
      · left
        rw [List.getLast?_append]
        apply or_ne_some _ _ _ hBr.2.2
        rw [List.getLast?_append]
        apply or_ne_some _ _ _ hFp.2.2.1
        rw [List.getLast?_append]
        apply or_ne_some _ _ _ hR.2.2.1
        rw [List.getLast?_append]
        simp [List.getLast?, Option.or]
  · rw [buildExportArgs_default p hw hgif, hcrfstr]
    constructor
    · apply hasPair_append_of_left
      apply hasPair_append_of_left
      apply hasPair_append_of_left
      apply hasPair_append_of_left
      apply hasPair_append_of_right
      rw [defaultEncoderArgs_expand _ _ _ _ hpro]
      apply hasPair_cons_of
      apply hasPair_cons_of
      apply hasPair_cons_of
      apply hasPair_cons_of
      rw [hasPair_cons_cons]
      simp
    · apply hasPair_append_false
      · apply hasPair_append_false
        · apply hasPair_append_false
          · apply hasPair_append_false
            · apply hasPair_append_false
              · apply hasPair_append_false
                · exact hA
                · exact filterSeg_crf0 _
                · right; simp
              · exact encoder_crf0 p.format p.codec _ hpro
              · right; rw [encoder_head]; simp
            · exact hR.1
            · right; exact hR.2.1
          · exact hFp.1
          · right; exact hFp.2.1
        · exact hBr.1
        · right; exact hBr.2.1
      · exact hasPair_single _ _ _
      · left
        rw [List.getLast?_append]
        apply or_ne_some _ _ _ hBr.2.2
        rw [List.getLast?_append]
        apply or_ne_some _ _ _ hFp.2.2.1
        rw [List.getLast?_append]
        apply or_ne_some _ _ _ hR.2.2.1
        rw [List.getLast?_append]
        rcases encoder_getLast p.format p.codec ((p.speed.getD .medium).str) "23"
          with hE1 | hE1 <;>
          rw [hE1] <;> simp [Option.or]

/-- Parameters requesting lossless quality: `crf = 0`, mp4/h264. -/
def crfZeroParams : ExportTimelineParams :=
  { clips := [{ sourcePath := "/videos/a.mp4", inPoint := 0, outPoint := 10 }],
    outputPath := "/out.mp4", format := .mp4, crop := Option.none,
    codec := Option.some .h264, resolution := Option.none, fps := Option.none,
    bitrate := Option.none, crf := Option.some 0, speed := Option.none }

/-- Witness for C10 at the concrete `crf = 0` request. -/
theorem exportTimeline_crf_zero_coerced_witness :
    hasPair "-crf" "23" (buildExportArgs crfZeroParams) = true
    ∧ hasPair "-crf" "0" (buildExportArgs crfZeroParams) = false :=
  exportTimeline_crf_zero_coerced crfZeroParams rfl (by decide) (by decide)

/-- C3 (amended): for the default-branch formats (not webm, not gif) with a
non-prores codec, `bitrate = "auto"` omits the trailing `-b:v` parameter
entirely — no `-b:v` token appears anywhere (provided no user-supplied path
spells the flag) — while `-crf` is carried.  (webm always emits `-b:v 0`
alongside `-crf`, and an explicit bitrate is appended even though `-crf`
stays, so the two quality controls are not mutually exclusive in general.) -/
theorem exportTimeline_auto_bitrate (p : ExportTimelineParams)
    (hauto : p.bitrate = Option.some BitrateSetting.auto)
    (hw : p.format ≠ .webm) (hgif : p.format ≠ .gif)
    (hpro : p.codec ≠ Option.some Codec.prores)
    (hsrc : ∀ cl ∈ p.clips, cl.sourcePath ≠ "-b:v")
    (houtp : p.outputPath ≠ "-b:v") :
    ("-b:v" : String) ∉ buildExportArgs p ∧ ("-crf" : String) ∈ buildExportArgs p := by
  have hR := resolutionArgs_facts p.resolution
  have hFp := fpsArgs_facts p.fps
  rw [buildExportArgs_default p hw hgif]
  constructor
  · intro hmem
    simp only [List.mem_append] at hmem
    rcases hmem with ((((((hy | hi) | hfl) | he) | hr) | hfp) | hbr) | hlast
    · simp at hy
    · exact not_mem_inputArgs_bv p.clips hsrc hi
    · simp only [List.mem_cons, List.not_mem_nil, or_false] at hfl
      rcases hfl with h | h | h | h | h
      · exact absurd h (by decide)
      · exact filterComplex_ne p.clips p.crop "-b:v" (by decide) h.symm
      · exact absurd h (by decide)
      · exact absurd h (by decide)
      · exact absurd h (by decide)
    · exact encoder_not_mem_bv p.format p.codec _ _ hpro
        (speedStr_ne_bv _) (numStr_ne_bv _) he
    · exact hR.2.2.2 hr
    · exact hFp.2.2.2 hfp
    · rw [hauto, bitrateArgs_auto] at hbr
      exact (List.not_mem_nil _) hbr
    · simp only [List.mem_singleton] at hlast
      exact houtp hlast.symm
  · apply List.mem_append_left
    apply List.mem_append_left
    apply List.mem_append_left
    apply List.mem_append_left
    apply List.mem_append_right
    exact encoder_mem_crf p.format p.codec _ _ hpro

/-- Concrete auto-bitrate parameters: mp4/h264, `bitrate = "auto"`. -/
def autoBitrateParams : ExportTimelineParams :=
  { clips := [{ sourcePath := "/videos/a.mp4", inPoint := 0, outPoint := 10 }],
    outputPath := "/out.mp4", format := .mp4, crop := Option.none,
    codec := Option.some .h264, resolution := Option.none, fps := Option.none,
    bitrate := Option.some .auto, crf := Option.some 23, speed := Option.none }

/-- Witness for C3 (amended) at the concrete auto-bitrate request. -/
theorem exportTimeline_auto_bitrate_witness :
    ("-b:v" : String) ∉ buildExportArgs autoBitrateParams
    ∧ ("-crf" : String) ∈ buildExportArgs autoBitrateParams :=
  exportTimeline_auto_bitrate autoBitrateParams rfl (by decide) (by decide) (by decide)
    (by
      intro cl hcl
      rcases List.mem_singleton.mp hcl with rfl
      decide)
    (by decide)

/-- The same export with an explicit bitrate of 5000 kbps. -/
def explicitBitrateParams : ExportTimelineParams :=
  { autoBitrateParams with bitrate := Option.some (.kbps 5000) }

/-- Counterexample to C3 as stated: requesting an explicit bitrate leaves
the `-crf` argument in place and appends `-b:v 5000k`, so bitrate and CRF
are set simultaneously in one emitted argument list. -/
theorem exportTimeline_bitrate_and_crf_both :
    ("-crf" : String) ∈ buildExportArgs explicitBitrateParams
    ∧ ("-b:v" : String) ∈ buildExportArgs explicitBitrateParams := by
  rw [buildExportArgs_default explicitBitrateParams (by decide) (by decide)]
  constructor
  · apply List.mem_append_left
    apply List.mem_append_left
    apply List.mem_append_left
    apply List.mem_append_left
    apply List.mem_append_right
    exact encoder_mem_crf _ _ _ _ (by decide)
  · apply List.mem_append_left
    apply List.mem_append_right
    have hb : explicitBitrateParams.bitrate = Option.some (.kbps 5000) := rfl
    rw [hb]
    have hlist : bitrateArgs (Option.some (.kbps 5000)) = ["-b:v", numStr 5000 ++ "k"] := by
      norm_num [bitrateArgs]
    rw [hlist]
    simp
